import Mathlib

/-!
Verification development for the deep-split ledger and debt-netting engine.

Shallow embedding of the Rust source:
  - src/models/split.rs        : the SplitTransaction ledger row and TransactionType
  - src/models/user.rs         : get_owes_with_group (the balance aggregator)
  - src/models/group.rs        : find_group_for_users, settle_for_group
  - src/models/expense.rs      : new_expense
  - src/schema/mutation.rs     : add_expense, settle_in_group, simplify_cross_group,
                                 auto_settle_with_user, convert_currency

Modelling conventions: machine integers (i64) are Lean Int (the code never
multiplies amounts, so overflow is not reachable in the modelled fragment);
SQL tables are Lean lists of records; generated uuids are modelled as Nat
drawn from counters or passed as parameters; f64 currency rates are modelled
as Rat with truncation toward zero for the `as i64` cast; a database
transaction is modelled as all-or-nothing appending of the pending rows.
Fields of rows that no claim mentions (timestamps, notes, image ids, row
uuids, metadata) are omitted from the embedding.
-/

namespace DeepSplit

/-- Transaction types, from src/models/split.rs. -/
inductive TransactionType where
  | ExpenseSplit
  | CrossGroupSettlement
  | CurrencyConversion
  | CashPaid
deriving Repr, DecidableEq

/-- A ledger row (SplitTransaction), from src/models/split.rs.
Generated ids are Nat; user, group and currency ids are String. -/
structure Split where
  expense_id : Option Nat
  group_id : String
  amount : Int
  currency_id : String
  from_user : String
  to_user : String
  transaction_type : TransactionType
  part_transaction : Option Nat
  with_group_id : Option String
deriving Repr, DecidableEq

/-- The WHERE clause of get_owes_with_group: the row is between the two users
(either direction).  $1 is bound to the from_user parameter, $2 to to_user. -/
def betweenUsers (toU fromU : String) (r : Split) : Bool :=
  (r.from_user == fromU && r.to_user == toU) || (r.from_user == toU && r.to_user == fromU)

/-- The CASE WHEN from_user = $1 THEN amount ELSE -amount signed contribution
of one row, where $1 is the from_user parameter of get_owes_with_group. -/
def signedAmount (fromU : String) (r : Split) : Int :=
  if r.from_user == fromU then r.amount else -r.amount

/-- Net owed amount for one (group, currency) bucket of get_owes_with_group:
the SQL sums the signed amounts of all rows between the two users in that
group and currency. -/
def netOwedIn (toU fromU g c : String) (ledger : List Split) : Int :=
  ((ledger.filter (fun r =>
      betweenUsers toU fromU r && r.group_id == g && r.currency_id == c)).map
    (signedAmount fromU)).sum

/-- Sum of amounts over rows (from_user = x, to_user = y, group = g, currency = c):
the two directed sums of spec Invariant I2. -/
def sumFromTo (x y g c : String) (ledger : List Split) : Int :=
  ((ledger.filter (fun r =>
      r.from_user == x && r.to_user == y && r.group_id == g && r.currency_id == c)).map
    (·.amount)).sum

/-- Order-preserving removal of duplicates (keeps the first occurrence),
used to model the key sets produced by SQL GROUP BY. -/
def dedupFirstAux {α : Type} [DecidableEq α] (seen : List α) : List α → List α
  | [] => []
  | a :: l => if a ∈ seen then dedupFirstAux seen l else a :: dedupFirstAux (a :: seen) l

/-- Order-preserving dedup, keeping first occurrences. -/
def dedupFirst {α : Type} [DecidableEq α] (l : List α) : List α :=
  dedupFirstAux [] l

/-- The (group_id, currency_id) keys of the outer GROUP BY of
get_owes_with_group, in first-occurrence order over the ledger. -/
def owesKeys (toU fromU : String) (ledger : List Split) : List (String × String) :=
  dedupFirst ((ledger.filter (betweenUsers toU fromU)).map
    (fun r => (r.group_id, r.currency_id)))

/-- One OwedInGroup result record, from src/models/user.rs. -/
structure OwedInGroup where
  group_id : String
  amount : Int
  currency_id : String
deriving Repr, DecidableEq

/-- User::get_owes_with_group (src/models/user.rs lines 147-186): per
(group, currency) key between the two users, the signed net amount,
positive when the from_user argument owes the to_user argument. -/
def get_owes_with_group (toU fromU : String) (ledger : List Split) : List OwedInGroup :=
  (owesKeys toU fromU ledger).map
    (fun k => { group_id := k.1, amount := netOwedIn toU fromU k.1 k.2 ledger,
                currency_id := k.2 })

/-- Row-level signed contribution to the net between toU and fromU
restricted to currency c (zero for rows not between them or other
currencies). -/
def contribC (toU fromU c : String) (r : Split) : Int :=
  if betweenUsers toU fromU r && r.currency_id == c then signedAmount fromU r else 0

/-- Total net between two users in one currency, summed across all groups,
directly as a signed row sum. -/
def totalNet (toU fromU c : String) (ledger : List Split) : Int :=
  (ledger.map (contribC toU fromU c)).sum

/-- Aggregate of the owed_between output across all groups for one fixed
currency, as the spec words it (sum of the returned per-group nets). -/
def aggOwed (toU fromU c : String) (ledger : List Split) : Int :=
  (((get_owes_with_group toU fromU ledger).filter
      (fun o => o.currency_id == c)).map (·.amount)).sum

/-- Group::settle_for_group (src/models/group.rs lines 273-334): builds the
single inserted row from its arguments (id and timestamps omitted). -/
def settle_for_group (group_id from_user to_user : String) (amount : Int)
    (part_transaction : Option Nat) (transaction_type : TransactionType)
    (with_group_id : Option String) (currency_id : String) : Split :=
  { expense_id := none, group_id := group_id, amount := amount,
    currency_id := currency_id, from_user := from_user, to_user := to_user,
    transaction_type := transaction_type, part_transaction := part_transaction,
    with_group_id := with_group_id }

/-- Mutation::settle_in_group (src/schema/mutation.rs lines 701-783): after the
membership checks it inserts one CashPaid row with from_user bound to the
payee (to_user argument) and to_user bound to the caller; the amount is
passed through unvalidated.  Returns the committed ledger. -/
def settle_in_group (selfUser toUser groupId : String) (members : List String)
    (amount : Int) (currencyId : String) (ledger : List Split) :
    Except String (List Split) :=
  if !(members.contains toUser) || !(members.contains selfUser) then
    .error "Cant settle to non members"
  else
    .ok (ledger ++ [settle_for_group groupId toUser selfUser amount none
      .CashPaid none currencyId])

/-- The two offsetting rows of one cross-group pairing: a row in the
positive entry's group (from = self, to = with, with_group_id = the negative
group) and the mirror row in the negative entry's group. -/
def crossPairRows (selfU withU cur : String) (part : Nat) (posG negG : String)
    (amt : Int) : List Split :=
  [settle_for_group posG selfU withU amt (some part) .CrossGroupSettlement (some negG) cur,
   settle_for_group negG withU selfU amt (some part) .CrossGroupSettlement (some posG) cur]

/-- The inner while-let loop of simplify_cross_group for one positive entry
(src/schema/mutation.rs lines 816-872).  State: remaining positive amount,
the current negative cursor, the settled part of the current negative, and
the not-yet-drawn negatives.  Returns the emitted rows and the final cursor
state.  Structural recursion on an explicit fuel argument; every claim below
is either a loop invariant (true for any fuel) or a concrete evaluation. -/
def drawNegatives (selfU withU cur : String) (part : Nat) (posG : String) :
    Nat → Int → Option (Int × String) → Int → List (Int × String) →
    List Split × Option (Int × String) × Int × List (Int × String)
  | 0, _, curNeg, negSettled, negs => ([], curNeg, negSettled, negs)
  | fuel + 1, remPos, some nv, negSettled, negs =>
    let remNeg := |nv.1| - negSettled
    if 0 < remNeg then
      if remPos < remNeg then
        -- remaining_negative > remaining_positive: settle remPos, keep the
        -- cursor, and continue with the next positive
        (crossPairRows selfU withU cur part posG nv.2 remPos,
         some nv, negSettled + remPos, negs)
      else
        -- settle remNeg, drop the cursor, and keep drawing
        let rest := drawNegatives selfU withU cur part posG fuel
          (remPos - remNeg) none 0 negs
        (crossPairRows selfU withU cur part posG nv.2 remNeg ++ rest.1,
         rest.2.1, rest.2.2.1, rest.2.2.2)
    else
      drawNegatives selfU withU cur part posG fuel remPos none 0 negs
  | _fuel + 1, _remPos, none, negSettled, [] => ([], none, negSettled, [])
  | fuel + 1, remPos, none, negSettled, n :: rest =>
    drawNegatives selfU withU cur part posG fuel remPos (some n) negSettled rest

/-- The outer loop over positive entries of simplify_cross_group
(src/schema/mutation.rs lines 813-873), threading the shared negative
cursor.  The fuel 2 * negs.length + 1 bounds the inner loop iterations for
one positive. -/
def processPositives (selfU withU cur : String) (part : Nat) :
    List (Int × String) → Option (Int × String) → Int → List (Int × String) →
    List Split
  | [], _, _, _ => []
  | p :: ps, curNeg, negSettled, negs =>
    let res := drawNegatives selfU withU cur part p.2 (2 * negs.length + 2)
      p.1 curNeg negSettled negs
    res.1 ++ processPositives selfU withU cur part ps res.2.1 res.2.2.1 res.2.2.2

/-- One currency bucket of simplify_cross_group: positives and negatives are
filtered from the bucket in order; the initial negatives.next() is folded
into the first draw of the cursor. -/
def settleCurrencyBucket (selfU withU cur : String) (part : Nat)
    (owes : List (Int × String)) : List Split :=
  processPositives selfU withU cur part (owes.filter (fun ow => 0 < ow.1))
    none 0 (owes.filter (fun ow => ow.1 < 0))

/-- The per-currency buckets of simplify_cross_group, built by pushing each
owes entry onto its currency bucket; bucket order is modelled as
first-occurrence order of the currencies. -/
def currencyBuckets (owes : List OwedInGroup) : List (String × List (Int × String)) :=
  (dedupFirst (owes.map (·.currency_id))).map
    (fun c => (c, (owes.filter (fun o => o.currency_id == c)).map
      (fun o => (o.amount, o.group_id))))

/-- Mutation::simplify_cross_group (src/schema/mutation.rs lines 785-879):
reads the per-group nets, buckets them by currency, and runs the pairing
loop per bucket.  One fresh part id (basePart + bucket index) is drawn per
currency bucket.  Returns the rows inserted (all in one transaction). -/
def simplify_cross_group (selfU withU : String) (basePart : Nat)
    (ledger : List Split) : List Split :=
  ((currencyBuckets (get_owes_with_group selfU withU ledger)).enum.map
    (fun ic => settleCurrencyBucket selfU withU ic.2.1 (basePart + ic.1) ic.2.2)).flatten

/-- A CashPaid leg of auto_settle_with_user: from_user is bound to the
with_user argument and to_user to the caller. -/
def autoSettleLeg (groupId withU selfU : String) (amount : Int) (part : Nat)
    (cur : String) : Split :=
  settle_for_group groupId withU selfU amount (some part) .CashPaid none cur

/-- Stable insertion into a list sorted descending by the Int component:
models Vec::sort_by(|a, b| b.1.cmp(&a.1)), which is a stable descending
sort. -/
def insertDesc (x : String × Int) : List (String × Int) → List (String × Int)
  | [] => [x]
  | y :: l => if y.2 ≤ x.2 then x :: y :: l else y :: insertDesc x l

/-- Stable descending sort by the Int component. -/
def sortDesc : List (String × Int) → List (String × Int)
  | [] => []
  | x :: l => insertDesc x (sortDesc l)

/-- The candidate list of auto_settle_with_user (src/schema/mutation.rs lines
901-912): per-group nets against with_user, restricted to the given
currency, sorted descending by amount. -/
def autoSettleOwes (selfU withU cur : String) (ledger : List Split) :
    List (String × Int) :=
  sortDesc (((get_owes_with_group withU selfU ledger).filter
      (fun o => o.currency_id == cur)).map (fun o => (o.group_id, o.amount)))

/-- The settlement loop of auto_settle_with_user (src/schema/mutation.rs
lines 918-945): walk the candidates, settle min(debt, remaining) for each
positive debt, stop once the remaining amount is exhausted.  Returns the
legs and the final remaining amount. -/
def autoSettleLoop (selfU withU cur : String) (part : Nat) :
    List (String × Int) → Int → List Split × Int
  | [], rem => ([], rem)
  | o :: os, rem =>
    if rem ≤ 0 then ([], rem)
    else if 0 < o.2 then
      let toPay := min o.2 rem
      let rest := autoSettleLoop selfU withU cur part os (rem - toPay)
      (autoSettleLeg o.1 withU selfU toPay part cur :: rest.1, rest.2)
    else autoSettleLoop selfU withU cur part os rem

/-- Mutation::auto_settle_with_user (src/schema/mutation.rs lines 881-1031),
success path: the loop legs plus, when an overpayment remains, one leftover
leg in the found-or-created direct group (passed as directG; its lookup is
modelled by find_group_for_users below).  All legs share the one part id. -/
def auto_settle_with_user (selfU withU cur : String) (amount : Int)
    (part : Nat) (directG : String) (ledger : List Split) : List Split :=
  let res := autoSettleLoop selfU withU cur part
    (autoSettleOwes selfU withU cur ledger) amount
  if 0 < res.2 then
    res.1 ++ [autoSettleLeg directG withU selfU res.2 part cur]
  else res.1

/-- A groups-table row (id, nullable name), from src/models/group.rs. -/
structure GroupRec where
  id : String
  name : Option String
deriving Repr, DecidableEq

/-- COUNT(DISTINCT gm.user_id) over the membership rows of group g whose
user_id is IN the bound parameter list, from the HAVING clause of
find_group_for_users.  Memberships are (group_id, user_id) pairs. -/
def countDistinctMembers (memberships : List (String × String)) (g : String)
    (params : List String) : Nat :=
  (dedupFirst ((memberships.filter
      (fun m => m.1 == g && params.contains m.2)).map (·.2))).length

/-- SELECT COUNT(*) FROM users WHERE id IN (params), over the users table
(a list of user ids). -/
def usersInParams (users : List String) (params : List String) : Nat :=
  (users.filter (fun u => params.contains u)).length

/-- The per-group condition of the find_group_for_users query
(src/models/group.rs lines 84-94): unnamed, and the distinct queried users
that are members number exactly params.len(), which must also equal the
count of users-table rows with id among the parameters. -/
def groupMatches (memberships : List (String × String)) (users : List String)
    (params : List String) (g : GroupRec) : Bool :=
  g.name == none && countDistinctMembers memberships g.id params == params.length
    && countDistinctMembers memberships g.id params == usersInParams users params

/-- Group::find_group_for_users (src/models/group.rs lines 70-104):
fetch_one returns the first row of the result set, and errs (RowNotFound)
only when the result set is empty. -/
def find_group_for_users (groups : List GroupRec)
    (memberships : List (String × String)) (users : List String)
    (params : List String) : Option GroupRec :=
  (groups.filter (groupMatches memberships users params)).head?

/-- One split input share of add_expense, from src/schema/mutation.rs. -/
structure SplitInput where
  user_id : String
  amount : Int
deriving Repr, DecidableEq

/-- An expenses-table row (fields the claims mention), from
src/models/expense.rs. -/
structure ExpenseRec where
  id : Nat
  created_by : String
  group_id : String
  amount : Int
  currency_id : String
deriving Repr, DecidableEq

/-- One ExpenseSplit row inserted by Expense::new_expense
(src/models/expense.rs lines 147-176). -/
def expenseSplitRow (eid : Nat) (groupId curId creator : String)
    (s : SplitInput) : Split :=
  { expense_id := some eid, group_id := groupId, amount := s.amount,
    currency_id := curId, from_user := s.user_id, to_user := creator,
    transaction_type := .ExpenseSplit, part_transaction := none,
    with_group_id := none }

/-- Mutation::add_expense (src/schema/mutation.rs lines 589-698) composed
with Expense::new_expense: validations in source order (self-split on the
submitted list, then amount > 0, then the amount > 0 filter, then the
membership check on the filtered list), then one expense row plus one
ExpenseSplit row per remaining share.  eid models the generated expense id;
members is the group membership list.  Returns the committed tables. -/
def add_expense (creator groupId : String) (members : List String)
    (amount : Int) (curId : String) (splits : List SplitInput) (eid : Nat)
    (expenses : List ExpenseRec) (ledger : List Split) :
    Except String (List ExpenseRec × List Split) :=
  if splits.any (fun s => s.user_id == creator) then
    .error "Cant split to self"
  else if amount ≤ 0 then
    .error "Amount must be greater than 0"
  else
    let kept := splits.filter (fun s => 0 < s.amount)
    if !(kept.all (fun s => members.contains s.user_id)) then
      .error "Not everyone is group member"
    else
      .ok (expenses ++ [ExpenseRec.mk eid creator groupId amount curId],
           ledger ++ kept.map (expenseSplitRow eid groupId curId creator))

/-- A currency row: exchange rate and minor-unit decimals, from
src/models/currency.rs.  The f64 rate is modelled as a rational. -/
structure CurrencyRec where
  rate : Rat
  decimals : Int
deriving Repr, DecidableEq

/-- Truncation toward zero of a rational, modelling the `as i64` cast. -/
def truncToInt (q : Rat) : Int :=
  if q < 0 then -(Int.floor (-q)) else Int.floor q

/-- The converted amount of convert_currency (src/schema/mutation.rs lines
1232-1235): |owed| * 10^(to.decimals - from.decimals) / from.rate * to.rate,
truncated to an integer. -/
def convertedAmount (owedAbs : Int) (fromCur toCur : CurrencyRec) : Int :=
  truncToInt ((owedAbs : Rat) * (10 : Rat) ^ (toCur.decimals - fromCur.decimals)
    / fromCur.rate * toCur.rate)

/-- Mutation::convert_currency (src/schema/mutation.rs lines 1174-1333):
the net balance restricted to the group and from-currency ($1 is bound to
the caller, so positive means the caller owes with_user); zero balance is a
no-op; otherwise two CurrencyConversion rows sharing one part id. -/
def convert_currency (selfU withU groupId fromCurId toCurId : String)
    (fromCur toCur : CurrencyRec) (part : Nat) (ledger : List Split) :
    List Split :=
  let owed := netOwedIn withU selfU groupId fromCurId ledger
  if owed = 0 then []
  else
    let fromAmount := |owed|
    let toAmount := convertedAmount |owed| fromCur toCur
    let dir := if 0 < owed then (withU, selfU) else (selfU, withU)
    [{ expense_id := none, group_id := groupId, amount := fromAmount,
       currency_id := fromCurId, from_user := dir.1, to_user := dir.2,
       transaction_type := .CurrencyConversion, part_transaction := some part,
       with_group_id := none },
     { expense_id := none, group_id := groupId, amount := toAmount,
       currency_id := toCurId, from_user := dir.2, to_user := dir.1,
       transaction_type := .CurrencyConversion, part_transaction := some part,
       with_group_id := none }]

/-- Whether all of the n sequential inserts starting at insert index k
succeed, for a failure oracle on insert indices. -/
def insertsOk (failAt : Nat → Bool) (k n : Nat) : Bool :=
  (List.range n).all (fun i => !(failAt (k + i)))

/-- simplify_cross_group under a store-failure oracle: all emitted rows are
written inside one transaction (src/schema/mutation.rs lines 804 and 876),
so the first failing insert aborts the whole operation and commits nothing.
Returns the committed ledger and whether the operation succeeded. -/
def simplifyCommitted (selfU withU : String) (basePart : Nat)
    (failAt : Nat → Bool) (ledger : List Split) : List Split × Bool :=
  let rows := simplify_cross_group selfU withU basePart ledger
  if insertsOk failAt 0 rows.length then (ledger ++ rows, true) else (ledger, false)

/-- auto_settle_with_user under a store-failure oracle.  The loop legs are
written in a first transaction which commits (src/schema/mutation.rs line
949) before the leftover leg is written in a second transaction (lines
975-997); a failure of the leftover insert therefore leaves the loop legs
committed. -/
def autoSettleCommitted (selfU withU cur : String) (amount : Int)
    (part : Nat) (directG : String) (failAt : Nat → Bool)
    (ledger : List Split) : List Split × Bool :=
  let res := autoSettleLoop selfU withU cur part
    (autoSettleOwes selfU withU cur ledger) amount
  if insertsOk failAt 0 res.1.length then
    if 0 < res.2 then
      if failAt res.1.length then (ledger ++ res.1, false)
      else (ledger ++ res.1 ++ [autoSettleLeg directG withU selfU res.2 part cur], true)
    else (ledger ++ res.1, true)
  else (ledger, false)

/-- new_expense under a store-failure oracle: the expense row and every
split row are written inside one transaction (src/models/expense.rs lines
115 and 180), so any failure commits nothing.  Insert index 0 is the
expense row itself. -/
def addExpenseCommitted (creator groupId : String) (members : List String)
    (amount : Int) (curId : String) (splits : List SplitInput) (eid : Nat)
    (failAt : Nat → Bool) (expenses : List ExpenseRec) (ledger : List Split) :
    (List ExpenseRec × List Split) × Bool :=
  match add_expense creator groupId members amount curId splits eid expenses ledger with
  | .error _ => ((expenses, ledger), false)
  | .ok res =>
    if insertsOk failAt 0 (1 + (splits.filter (fun s => 0 < s.amount)).length) then
      (res, true)
    else ((expenses, ledger), false)

/-- Number of committed rows carrying one part_transaction id. -/
def countPart (p : Nat) (ledger : List Split) : Nat :=
  (ledger.filter (fun r => r.part_transaction == some p)).length

/-! ### Helper lemmas -/

theorem mem_dedupFirstAux {α : Type} [DecidableEq α] (seen : List α) (l : List α)
    (x : α) : x ∈ dedupFirstAux seen l ↔ x ∈ l ∧ x ∉ seen := by
  induction l generalizing seen with
  | nil => simp [dedupFirstAux]
  | cons a l ih =>
    by_cases ha : a ∈ seen
    · simp only [dedupFirstAux, if_pos ha, ih, List.mem_cons]
      constructor
      · rintro ⟨hx, hs⟩
        exact ⟨Or.inr hx, hs⟩
      · rintro ⟨hx | hx, hs⟩
        · exact absurd (hx ▸ ha) hs
        · exact ⟨hx, hs⟩
    · simp only [dedupFirstAux, if_neg ha, List.mem_cons, ih]
      by_cases hxa : x = a
      · subst hxa
        simp [ha]
      · simp [hxa]

theorem nodup_dedupFirstAux {α : Type} [DecidableEq α] (seen : List α)
    (l : List α) : (dedupFirstAux seen l).Nodup := by
  induction l generalizing seen with
  | nil => simp [dedupFirstAux]
  | cons a l ih =>
    by_cases ha : a ∈ seen
    · simpa [dedupFirstAux, if_pos ha] using ih seen
    · simp only [dedupFirstAux, if_neg ha, List.nodup_cons]
      refine ⟨fun hmem => ?_, ih (a :: seen)⟩
      exact ((mem_dedupFirstAux (a :: seen) l a).mp hmem).2 (List.mem_cons_self a seen)

theorem mem_dedupFirst {α : Type} [DecidableEq α] (l : List α) (x : α) :
    x ∈ dedupFirst l ↔ x ∈ l := by
  simp [dedupFirst, mem_dedupFirstAux]

theorem nodup_dedupFirst {α : Type} [DecidableEq α] (l : List α) :
    (dedupFirst l).Nodup := nodup_dedupFirstAux [] l

theorem netOwedIn_cons (toU fromU g c : String) (r : Split) (L : List Split) :
    netOwedIn toU fromU g c (r :: L) =
      (if betweenUsers toU fromU r && r.group_id == g && r.currency_id == c then
        signedAmount fromU r else 0) + netOwedIn toU fromU g c L := by
  by_cases h : (betweenUsers toU fromU r && r.group_id == g && r.currency_id == c) = true
  · simp [netOwedIn, List.filter_cons, h]
  · rw [Bool.not_eq_true] at h
    simp [netOwedIn, List.filter_cons, h]

theorem sumFromTo_cons (x y g c : String) (r : Split) (L : List Split) :
    sumFromTo x y g c (r :: L) =
      (if r.from_user == x && r.to_user == y && r.group_id == g && r.currency_id == c then
        r.amount else 0) + sumFromTo x y g c L := by
  by_cases h : (r.from_user == x && r.to_user == y && r.group_id == g
      && r.currency_id == c) = true
  · simp [sumFromTo, List.filter_cons, h]
  · rw [Bool.not_eq_true] at h
    simp [sumFromTo, List.filter_cons, h]

theorem rowNet_eq (a b g c : String) (hab : a ≠ b) (r : Split) :
    (if betweenUsers a b r && r.group_id == g && r.currency_id == c then
      signedAmount b r else 0) =
    (if r.from_user == b && r.to_user == a && r.group_id == g && r.currency_id == c then
      r.amount else 0)
    - (if r.from_user == a && r.to_user == b && r.group_id == g && r.currency_id == c then
      r.amount else 0) := by
  by_cases h1 : r.from_user = b <;> by_cases h2 : r.to_user = a <;>
    by_cases h3 : r.from_user = a <;> by_cases h4 : r.to_user = b <;>
      simp_all [betweenUsers, signedAmount] <;> split <;> simp

/-- Invariant I2 as a row-level identity: for distinct users, the signed net
of one (group, currency) bucket is the difference of the two directed sums. -/
theorem netOwedIn_eq_sub (a b g c : String) (hab : a ≠ b) (ledger : List Split) :
    netOwedIn a b g c ledger =
      sumFromTo b a g c ledger - sumFromTo a b g c ledger := by
  induction ledger with
  | nil => simp [netOwedIn, sumFromTo]
  | cons r L ih =>
    rw [netOwedIn_cons, sumFromTo_cons, sumFromTo_cons, ih, rowNet_eq a b g c hab r]
    ring

theorem netOwedIn_eq_mapsum (a b g c : String) (L : List Split) :
    netOwedIn a b g c L =
      (L.map (fun r =>
        if betweenUsers a b r && r.group_id == g && r.currency_id == c then
          signedAmount b r else 0)).sum := by
  induction L with
  | nil => simp [netOwedIn]
  | cons r L ih => rw [netOwedIn_cons, ih, List.map_cons, List.sum_cons]

theorem map_sum_add {β : Type} (L : List β) (g h : β → Int) :
    (L.map (fun r => g r + h r)).sum = (L.map g).sum + (L.map h).sum := by
  induction L with
  | nil => simp
  | cons r L ih =>
    simp only [List.map_cons, List.sum_cons, ih]
    ring

theorem list_sum_comm {α β : Type} (K : List α) (L : List β) (f : α → β → Int) :
    (K.map (fun k => (L.map (f k)).sum)).sum =
      (L.map (fun r => (K.map (fun k => f k r)).sum)).sum := by
  induction K with
  | nil => simp
  | cons k K ih =>
    simp only [List.map_cons, List.sum_cons, ih]
    rw [← map_sum_add L (f k) (fun r => (K.map (fun x => f x r)).sum)]

theorem inner_sum_eq (a b : String) (r : Split) (K : List (String × String))
    (hK : K.Nodup) :
    (K.map (fun k =>
      if betweenUsers a b r && r.group_id == k.1 && r.currency_id == k.2 then
        signedAmount b r else 0)).sum =
    if betweenUsers a b r ∧ (r.group_id, r.currency_id) ∈ K then
      signedAmount b r else 0 := by
  induction K with
  | nil => simp
  | cons k K ih =>
    rw [List.map_cons, List.sum_cons, ih (List.nodup_cons.mp hK).2]
    by_cases hb : betweenUsers a b r = true
    · by_cases hk : (r.group_id, r.currency_id) = k
      · have hnot : (r.group_id, r.currency_id) ∉ K := by
          intro hmem
          exact (List.nodup_cons.mp hK).1 (hk ▸ hmem)
        have h1 : r.group_id = k.1 := by rw [← hk]
        have h2 : r.currency_id = k.2 := by rw [← hk]
        have hnotk : k ∉ K := hk ▸ hnot
        simp [hb, h1, h2, hnot, hnotk, hk]
      · have : ¬(r.group_id = k.1 ∧ r.currency_id = k.2) := by
          intro hcon
          exact hk (Prod.ext hcon.1 hcon.2)
        rcases not_and_or.mp this with h | h
        · simp [hb, h, hk]
        · simp [hb, h, hk]
    · simp [hb]

/-- The aggregate of the returned per-group nets for one currency equals the
direct signed row sum over the whole ledger restricted to that currency. -/
theorem aggOwed_eq_totalNet (a b c : String) (L : List Split) :
    aggOwed a b c L = totalNet a b c L := by
  have hmapfilter :
      (get_owes_with_group a b L).filter (fun o => o.currency_id == c) =
        ((owesKeys a b L).filter (fun k => k.2 == c)).map
          (fun k => { group_id := k.1, amount := netOwedIn a b k.1 k.2 L,
                      currency_id := k.2 }) := by
    rw [get_owes_with_group, List.filter_map]
    rfl
  have hnodup : ((owesKeys a b L).filter (fun k => k.2 == c)).Nodup :=
    (nodup_dedupFirst _).filter _
  rw [aggOwed, hmapfilter, List.map_map, totalNet]
  have hsum :
      ((((owesKeys a b L).filter (fun k => k.2 == c)).map
        (fun k => netOwedIn a b k.1 k.2 L))).sum =
      (L.map (fun r =>
        if betweenUsers a b r ∧
            (r.group_id, r.currency_id) ∈ (owesKeys a b L).filter (fun k => k.2 == c) then
          signedAmount b r else 0)).sum := by
    calc (((owesKeys a b L).filter (fun k => k.2 == c)).map
        (fun k => netOwedIn a b k.1 k.2 L)).sum
        = (((owesKeys a b L).filter (fun k => k.2 == c)).map
            (fun k => (L.map (fun r =>
              if betweenUsers a b r && r.group_id == k.1 && r.currency_id == k.2 then
                signedAmount b r else 0)).sum)).sum := by
          congr 1
          exact List.map_congr_left (fun k _ => netOwedIn_eq_mapsum a b k.1 k.2 L)
      _ = (L.map (fun r =>
            (((owesKeys a b L).filter (fun k => k.2 == c)).map (fun k =>
              if betweenUsers a b r && r.group_id == k.1 && r.currency_id == k.2 then
                signedAmount b r else 0)).sum)).sum :=
          list_sum_comm _ _ _
      _ = _ := by
          congr 1
          exact List.map_congr_left (fun r _ => inner_sum_eq a b r _ hnodup)
  have hfun : ((fun o : OwedInGroup => o.amount) ∘ fun k : String × String =>
      OwedInGroup.mk k.1 (netOwedIn a b k.1 k.2 L) k.2) =
      fun k : String × String => netOwedIn a b k.1 k.2 L := rfl
  rw [hfun, hsum]
  congr 1
  refine List.map_congr_left (fun r hr => ?_)
  by_cases hb : betweenUsers a b r = true
  · have hkey : (r.group_id, r.currency_id) ∈ owesKeys a b L := by
      rw [owesKeys, mem_dedupFirst]
      exact List.mem_map_of_mem _ (List.mem_filter.mpr ⟨hr, hb⟩)
    by_cases hc : r.currency_id = c
    · have hthis : (r.group_id, r.currency_id) ∈
          (owesKeys a b L).filter (fun k => k.2 == c) :=
        List.mem_filter.mpr ⟨hkey, by simp [hc]⟩
      have hkey2 : (r.group_id, c) ∈ owesKeys a b L := hc ▸ hkey
      simp [contribC, hb, hc, hthis, hkey2]
    · have : (r.group_id, r.currency_id) ∉
          (owesKeys a b L).filter (fun k => k.2 == c) := by
        intro hmem
        exact hc (by simpa using (List.mem_filter.mp hmem).2)
      simp [contribC, hb, hc, this]
  · simp [contribC, hb]

/-- Claim C7: owed_between returns, for every group/currency pair where a
ledger row exists between the two distinct users, a signed entry whose
amount equals the sum over rows (from = b, to = a, group, currency) minus
the sum over rows (from = a, to = b, group, currency): positive means the
second user owes the first.  It is a pure read of the raw rows. -/
theorem owed_between_net_spec (a b : String) (hab : a ≠ b) (ledger : List Split) :
    (∀ r ∈ ledger, betweenUsers a b r = true →
      ∃ o ∈ get_owes_with_group a b ledger,
        o.group_id = r.group_id ∧ o.currency_id = r.currency_id) ∧
    (∀ o ∈ get_owes_with_group a b ledger,
      o.amount = sumFromTo b a o.group_id o.currency_id ledger
        - sumFromTo a b o.group_id o.currency_id ledger) := by
  constructor
  · intro r hr hb
    have hkey : (r.group_id, r.currency_id) ∈ owesKeys a b ledger := by
      rw [owesKeys, mem_dedupFirst]
      exact List.mem_map_of_mem _ (List.mem_filter.mpr ⟨hr, hb⟩)
    refine ⟨{ group_id := r.group_id,
              amount := netOwedIn a b r.group_id r.currency_id ledger,
              currency_id := r.currency_id }, ?_, rfl, rfl⟩
    rw [get_owes_with_group]
    exact List.mem_map_of_mem _ hkey
  · intro o ho
    rw [get_owes_with_group] at ho
    rcases List.mem_map.mp ho with ⟨k, _, rfl⟩
    exact netOwedIn_eq_sub a b k.1 k.2 hab ledger

/-- Witness for C7 at a concrete two-row ledger. -/
theorem owed_between_net_spec_witness :
    ("a" : String) ≠ "b" ∧
    ((∀ r ∈ [settle_for_group "g" "b" "a" 5 none .CashPaid none "USD"],
        betweenUsers "a" "b" r = true →
        ∃ o ∈ get_owes_with_group "a" "b"
            [settle_for_group "g" "b" "a" 5 none .CashPaid none "USD"],
          o.group_id = r.group_id ∧ o.currency_id = r.currency_id) ∧
      (∀ o ∈ get_owes_with_group "a" "b"
          [settle_for_group "g" "b" "a" 5 none .CashPaid none "USD"],
        o.amount = sumFromTo "b" "a" o.group_id o.currency_id
            [settle_for_group "g" "b" "a" 5 none .CashPaid none "USD"]
          - sumFromTo "a" "b" o.group_id o.currency_id
            [settle_for_group "g" "b" "a" 5 none .CashPaid none "USD"])) :=
  ⟨by decide, owed_between_net_spec "a" "b" (by decide) _⟩

theorem totalNet_append (a b c : String) (L R : List Split) :
    totalNet a b c (L ++ R) = totalNet a b c L + totalNet a b c R := by
  simp [totalNet]

theorem contrib_crossPair (a b c cur : String) (hab : a ≠ b) (part : Nat)
    (pg ng : String) (amt : Int) :
    ((crossPairRows a b cur part pg ng amt).map (contribC a b c)).sum = 0 := by
  by_cases hc : cur = c
  · simp [crossPairRows, settle_for_group, contribC, betweenUsers, signedAmount,
      hc, hab, Ne.symm hab]
  · simp [crossPairRows, settle_for_group, contribC, betweenUsers, signedAmount,
      hc, hab, Ne.symm hab]

theorem contrib_drawNegatives (a b c cur : String) (hab : a ≠ b) (part : Nat)
    (pg : String) (fuel : Nat) :
    ∀ (remPos : Int) (curNeg : Option (Int × String)) (negSettled : Int)
      (negs : List (Int × String)),
      ((drawNegatives a b cur part pg fuel remPos curNeg negSettled negs).1.map
        (contribC a b c)).sum = 0 := by
  induction fuel with
  | zero => intro remPos curNeg negSettled negs; simp [drawNegatives]
  | succ fuel ih =>
    intro remPos curNeg negSettled negs
    match curNeg, negs with
    | some nv, negs =>
      rw [drawNegatives]
      by_cases h1 : 0 < |nv.1| - negSettled
      · rw [if_pos h1]
        by_cases h2 : remPos < |nv.1| - negSettled
        · rw [if_pos h2]
          exact contrib_crossPair a b c cur hab part pg nv.2 remPos
        · rw [if_neg h2]
          simp only [List.map_append, List.sum_append]
          rw [ih (remPos - (|nv.1| - negSettled)) none 0 negs,
            contrib_crossPair a b c cur hab part pg nv.2 (|nv.1| - negSettled)]
          simp
      · rw [if_neg h1]
        exact ih remPos none 0 negs
    | none, [] => simp [drawNegatives]
    | none, n :: rest =>
      rw [drawNegatives]
      exact ih remPos (some n) negSettled rest

theorem contrib_processPositives (a b c cur : String) (hab : a ≠ b) (part : Nat)
    (ps : List (Int × String)) :
    ∀ (curNeg : Option (Int × String)) (negSettled : Int)
      (negs : List (Int × String)),
      ((processPositives a b cur part ps curNeg negSettled negs).map
        (contribC a b c)).sum = 0 := by
  induction ps with
  | nil => intro curNeg negSettled negs; simp [processPositives]
  | cons p ps ih =>
    intro curNeg negSettled negs
    rw [processPositives]
    simp only [List.map_append, List.sum_append]
    rw [contrib_drawNegatives a b c cur hab part p.2 _ p.1 curNeg negSettled negs,
      ih _ _ _]
    simp

theorem contrib_bucket (a b c cur : String) (hab : a ≠ b) (part : Nat)
    (owes : List (Int × String)) :
    ((settleCurrencyBucket a b cur part owes).map (contribC a b c)).sum = 0 :=
  contrib_processPositives a b c cur hab part _ none 0 _

theorem contrib_enumFrom (a b c : String) (hab : a ≠ b) (basePart : Nat)
    (bks : List (String × List (Int × String))) :
    ∀ start : Nat,
      ((((bks.enumFrom start).map
          (fun ic => settleCurrencyBucket a b ic.2.1 (basePart + ic.1) ic.2.2)).flatten).map
        (contribC a b c)).sum = 0 := by
  induction bks with
  | nil => intro start; simp
  | cons bk bks ih =>
    intro start
    rw [List.enumFrom]
    simp only [List.map_cons, List.flatten_cons, List.map_append, List.sum_append]
    rw [contrib_bucket a b c bk.1 hab (basePart + start) bk.2, ih (start + 1)]
    simp

theorem contrib_simplify (a b c : String) (hab : a ≠ b) (basePart : Nat)
    (ledger : List Split) :
    totalNet a b c (simplify_cross_group a b basePart ledger) = 0 := by
  rw [simplify_cross_group, totalNet, List.enum]
  exact contrib_enumFrom a b c hab basePart
    (currencyBuckets (get_owes_with_group a b ledger)) 0

/-- Claim C1: cross-group netting conserves, for each currency, the total
net balance between the two (distinct) users aggregated across all groups,
for every ledger state: the aggregate of the owed_between output is the
same before and after appending the rows the operation commits. -/
theorem simplify_cross_group_conserves (a b : String) (hab : a ≠ b)
    (c : String) (basePart : Nat) (ledger : List Split) :
    aggOwed a b c (ledger ++ simplify_cross_group a b basePart ledger) =
      aggOwed a b c ledger := by
  rw [aggOwed_eq_totalNet, aggOwed_eq_totalNet, totalNet_append,
    contrib_simplify a b c hab basePart ledger, add_zero]

/-- Witness for C1 at a concrete three-row ledger with debts in both
directions across three groups. -/
theorem simplify_cross_group_conserves_witness :
    ("a" : String) ≠ "b" ∧
    aggOwed "a" "b" "USD"
      ([settle_for_group "g1" "b" "a" 5 none .CashPaid none "USD",
        settle_for_group "g3" "a" "b" 2 none .CashPaid none "USD",
        settle_for_group "g4" "a" "b" 3 none .CashPaid none "USD"] ++
        simplify_cross_group "a" "b" 9
          [settle_for_group "g1" "b" "a" 5 none .CashPaid none "USD",
           settle_for_group "g3" "a" "b" 2 none .CashPaid none "USD",
           settle_for_group "g4" "a" "b" 3 none .CashPaid none "USD"]) =
      aggOwed "a" "b" "USD"
        [settle_for_group "g1" "b" "a" 5 none .CashPaid none "USD",
         settle_for_group "g3" "a" "b" 2 none .CashPaid none "USD",
         settle_for_group "g4" "a" "b" 3 none .CashPaid none "USD"] :=
  ⟨by decide, simplify_cross_group_conserves "a" "b" (by decide) "USD" 9 _⟩

theorem length_eq_of_nodup_mem_iff {α : Type} [DecidableEq α] (l1 l2 : List α)
    (h1 : l1.Nodup) (h2 : l2.Nodup) (h : ∀ x, x ∈ l1 ↔ x ∈ l2) :
    l1.length = l2.length := by
  have hf : l1.toFinset = l2.toFinset := by
    ext x
    simp [List.mem_toFinset, h x]
  rw [← List.toFinset_card_of_nodup h1, ← List.toFinset_card_of_nodup h2, hf]

theorem mem_of_subset_nodup_length {α : Type} [DecidableEq α] (l1 l2 : List α)
    (h1 : l1.Nodup) (h2 : l2.Nodup) (hsub : ∀ x ∈ l1, x ∈ l2)
    (hlen : l2.length ≤ l1.length) : ∀ x ∈ l2, x ∈ l1 := by
  have hfsub : l1.toFinset ⊆ l2.toFinset := by
    intro x hx
    exact List.mem_toFinset.mpr (hsub x (List.mem_toFinset.mp hx))
  have hcard : l2.toFinset.card ≤ l1.toFinset.card := by
    rw [List.toFinset_card_of_nodup h1, List.toFinset_card_of_nodup h2]
    exact hlen
  have heq := Finset.eq_of_subset_of_card_le hfsub hcard
  intro x hx
  exact List.mem_toFinset.mp (heq ▸ List.mem_toFinset.mpr hx)

theorem mem_memberList (memberships : List (String × String)) (gid : String)
    (params : List String) (u : String) :
    u ∈ dedupFirst ((memberships.filter
        (fun m => m.1 == gid && params.contains m.2)).map (·.2)) ↔
      ((gid, u) ∈ memberships ∧ u ∈ params) := by
  rw [mem_dedupFirst]
  constructor
  · intro hmem
    rcases List.mem_map.mp hmem with ⟨m, hm, rfl⟩
    rcases List.mem_filter.mp hm with ⟨hm2, hcond⟩
    rcases (Bool.and_eq_true _ _).mp hcond with ⟨hc1, hc2⟩
    have h1 : m.1 = gid := by simpa using hc1
    have h2 : m.2 ∈ params := by simpa using hc2
    refine ⟨?_, h2⟩
    obtain ⟨f, s⟩ := m
    simp only at h1
    rw [show (gid, s) = (f, s) by rw [h1]]
    exact hm2
  · rintro ⟨hmem, hp2⟩
    refine List.mem_map.mpr ⟨(gid, u), List.mem_filter.mpr ⟨hmem, ?_⟩, rfl⟩
    simp [hp2]

theorem countDistinct_len_imp (memberships : List (String × String))
    (gid : String) (params : List String) (hp : params.Nodup)
    (hlen : countDistinctMembers memberships gid params = params.length) :
    ∀ u ∈ params, (gid, u) ∈ memberships := by
  rw [countDistinctMembers] at hlen
  have hDnodup := nodup_dedupFirst ((memberships.filter
    (fun m => m.1 == gid && params.contains m.2)).map (·.2))
  have hDsub : ∀ u ∈ dedupFirst ((memberships.filter
      (fun m => m.1 == gid && params.contains m.2)).map (·.2)), u ∈ params :=
    fun u hu2 => ((mem_memberList memberships gid params u).mp hu2).2
  have hall := mem_of_subset_nodup_length _ params hDnodup hp hDsub (le_of_eq hlen.symm)
  intro u hu2
  exact ((mem_memberList memberships gid params u).mp (hall u hu2)).1

theorem countDistinct_len_of_all (memberships : List (String × String))
    (gid : String) (params : List String) (hp : params.Nodup)
    (hmem : ∀ u ∈ params, (gid, u) ∈ memberships) :
    countDistinctMembers memberships gid params = params.length := by
  rw [countDistinctMembers]
  refine length_eq_of_nodup_mem_iff _ params (nodup_dedupFirst _) hp (fun u => ?_)
  rw [mem_memberList memberships gid params u]
  exact ⟨fun h => h.2, fun h => ⟨hmem u h, h⟩⟩

theorem usersInParams_len (users : List String) (params : List String)
    (hu : users.Nodup) (hp : params.Nodup) (hsub : ∀ u ∈ params, u ∈ users) :
    usersInParams users params = params.length := by
  rw [usersInParams]
  refine length_eq_of_nodup_mem_iff _ params (hu.filter _) hp (fun x => ?_)
  rw [List.mem_filter]
  constructor
  · intro h
    simpa using h.2
  · intro h
    exact ⟨hsub x h, by simpa using h⟩

/-- Claim C3 amended, characterization: under distinct query users that all
exist in a duplicate-free users table, the SQL condition of
find_group_for_users holds exactly for the unnamed groups whose membership
CONTAINS all the queried users (strict supersets included); the call
returns the first such group in table order and fails only when none
exists. -/
theorem find_group_for_users_amended (groups : List GroupRec)
    (memberships : List (String × String)) (users : List String)
    (params : List String) (hp : params.Nodup) (hu : users.Nodup)
    (hsub : ∀ u ∈ params, u ∈ users) :
    (∀ g : GroupRec, groupMatches memberships users params g = true ↔
      (g.name = none ∧ ∀ u ∈ params, (g.id, u) ∈ memberships)) ∧
    (find_group_for_users groups memberships users params = none ↔
      ∀ g ∈ groups, ¬(g.name = none ∧ ∀ u ∈ params, (g.id, u) ∈ memberships)) ∧
    (∀ g, find_group_for_users groups memberships users params = some g →
      g ∈ groups ∧ g.name = none ∧ ∀ u ∈ params, (g.id, u) ∈ memberships) := by
  have hchar : ∀ g : GroupRec, groupMatches memberships users params g = true ↔
      (g.name = none ∧ ∀ u ∈ params, (g.id, u) ∈ memberships) := by
    intro g
    constructor
    · intro h
      simp only [groupMatches, Bool.and_eq_true, beq_iff_eq] at h
      exact ⟨h.1.1, countDistinct_len_imp memberships g.id params hp h.1.2⟩
    · rintro ⟨hname, hmem⟩
      have hcd := countDistinct_len_of_all memberships g.id params hp hmem
      have hup := usersInParams_len users params hu hp hsub
      simp only [groupMatches, Bool.and_eq_true, beq_iff_eq]
      exact ⟨⟨hname, hcd⟩, by rw [hcd, hup]⟩
  refine ⟨hchar, ?_, ?_⟩
  · rw [find_group_for_users, List.head?_eq_none_iff, List.filter_eq_nil_iff]
    constructor
    · intro h g hg hcon
      exact h g hg ((hchar g).mpr hcon)
    · intro h g hg hmatch
      exact h g hg ((hchar g).mp hmatch)
  · intro g hg
    rw [find_group_for_users] at hg
    have hmem : g ∈ groups.filter (groupMatches memberships users params) := by
      cases hfl : groups.filter (groupMatches memberships users params) with
      | nil => rw [hfl] at hg; simp at hg
      | cons x xs =>
        rw [hfl] at hg
        simp only [List.head?_cons, Option.some.injEq] at hg
        rw [hg]
        exact List.mem_cons_self g xs
    rcases List.mem_filter.mp hmem with ⟨hgin, hmatch⟩
    exact ⟨hgin, (hchar g).mp hmatch⟩

/-- Witness for the amended C3 at a concrete exact-match instance. -/
theorem find_group_for_users_amended_witness :
    (["a", "b"] : List String).Nodup ∧ (["a", "b"] : List String).Nodup ∧
    (∀ u ∈ (["a", "b"] : List String), u ∈ (["a", "b"] : List String)) ∧
    ((∀ g : GroupRec, groupMatches [("g", "a"), ("g", "b")] ["a", "b"] ["a", "b"] g = true ↔
        (g.name = none ∧ ∀ u ∈ (["a", "b"] : List String), (g.id, u) ∈ [("g", "a"), ("g", "b")])) ∧
      (find_group_for_users [GroupRec.mk "g" none] [("g", "a"), ("g", "b")] ["a", "b"] ["a", "b"] = none ↔
        ∀ g ∈ [GroupRec.mk "g" none],
          ¬(g.name = none ∧ ∀ u ∈ (["a", "b"] : List String), (g.id, u) ∈ [("g", "a"), ("g", "b")])) ∧
      (∀ g, find_group_for_users [GroupRec.mk "g" none] [("g", "a"), ("g", "b")] ["a", "b"] ["a", "b"] = some g →
        g ∈ [GroupRec.mk "g" none] ∧ g.name = none ∧
          ∀ u ∈ (["a", "b"] : List String), (g.id, u) ∈ [("g", "a"), ("g", "b")])) :=
  ⟨by decide, by decide, by decide,
    find_group_for_users_amended [GroupRec.mk "g" none] [("g", "a"), ("g", "b")]
      ["a", "b"] ["a", "b"] (by decide) (by decide) (by decide)⟩

/-- Claim C3 counterexample: an unnamed group whose membership set
{a, b, c} is a STRICT SUPERSET of the queried member set {a, b} is
nevertheless returned by find_group_for_users, contradicting the claim
that the membership set must equal the queried set exactly. -/
theorem find_group_for_users_superset_counterexample :
    find_group_for_users [GroupRec.mk "g" none]
        [("g", "a"), ("g", "b"), ("g", "c")] ["a", "b", "c"] ["a", "b"] =
      some (GroupRec.mk "g" none) ∧
    ("g", "c") ∈ [("g", "a"), ("g", "b"), ("g", "c")] ∧
    "c" ∉ (["a", "b"] : List String) := by
  refine ⟨?_, by decide, by decide⟩
  rfl

/-- The pairing list of the netting loop, following the spec wording of
section 4.4 step 3: each (positive, negative) pairing settles
min(remaining_positive, remaining_negative).  Entries are
(settle, positive group, negative group).  Derived for comparison with the
rows the code emits; mirrors the cursor state of drawNegatives. -/
def drawPairs (posG : String) :
    Nat → Int → Option (Int × String) → Int → List (Int × String) →
    List (Int × String × String) × Option (Int × String) × Int × List (Int × String)
  | 0, _, curNeg, negSettled, negs => ([], curNeg, negSettled, negs)
  | fuel + 1, remPos, some nv, negSettled, negs =>
    let remNeg := |nv.1| - negSettled
    if 0 < remNeg then
      if remPos < remNeg then
        ([(min remPos remNeg, posG, nv.2)], some nv, negSettled + remPos, negs)
      else
        let rest := drawPairs posG fuel (remPos - remNeg) none 0 negs
        ((min remPos remNeg, posG, nv.2) :: rest.1, rest.2)
    else drawPairs posG fuel remPos none 0 negs
  | _fuel + 1, _remPos, none, negSettled, [] => ([], none, negSettled, [])
  | fuel + 1, remPos, none, negSettled, n :: rest =>
    drawPairs posG fuel remPos (some n) negSettled rest

/-- The pairing list of one whole bucket pass, mirroring processPositives. -/
def processPairs :
    List (Int × String) → Option (Int × String) → Int → List (Int × String) →
    List (Int × String × String)
  | [], _, _, _ => []
  | p :: ps, curNeg, negSettled, negs =>
    let res := drawPairs p.2 (2 * negs.length + 2) p.1 curNeg negSettled negs
    res.1 ++ processPairs ps res.2.1 res.2.2.1 res.2.2.2

/-- The pairing list of one currency bucket. -/
def bucketPairs (owes : List (Int × String)) : List (Int × String × String) :=
  processPairs (owes.filter (fun ow => 0 < ow.1)) none 0
    (owes.filter (fun ow => ow.1 < 0))

theorem drawNegatives_eq_pairs (a b cur : String) (part : Nat) (pg : String)
    (fuel : Nat) :
    ∀ (remPos : Int) (curNeg : Option (Int × String)) (negSettled : Int)
      (negs : List (Int × String)),
      drawNegatives a b cur part pg fuel remPos curNeg negSettled negs =
        (((drawPairs pg fuel remPos curNeg negSettled negs).1.map
            (fun pr => crossPairRows a b cur part pr.2.1 pr.2.2 pr.1)).flatten,
         (drawPairs pg fuel remPos curNeg negSettled negs).2) := by
  induction fuel with
  | zero => intro remPos curNeg negSettled negs; simp [drawNegatives, drawPairs]
  | succ fuel ih =>
    intro remPos curNeg negSettled negs
    match curNeg, negs with
    | some nv, negs =>
      rw [drawNegatives, drawPairs]
      by_cases h1 : 0 < |nv.1| - negSettled
      · rw [if_pos h1, if_pos h1]
        by_cases h2 : remPos < |nv.1| - negSettled
        · rw [if_pos h2, if_pos h2]
          have hmin : min remPos (|nv.1| - negSettled) = remPos :=
            min_eq_left (le_of_lt h2)
          simp [hmin]
        · rw [if_neg h2, if_neg h2]
          have hmin : min remPos (|nv.1| - negSettled) = |nv.1| - negSettled :=
            min_eq_right (le_of_not_lt h2)
          simp only [ih (remPos - (|nv.1| - negSettled)) none 0 negs, hmin,
            List.map_cons, List.flatten_cons]
      · rw [if_neg h1, if_neg h1]
        exact ih remPos none 0 negs
    | none, [] => simp [drawNegatives, drawPairs]
    | none, n :: rest =>
      rw [drawNegatives, drawPairs]
      exact ih remPos (some n) negSettled rest

theorem processPositives_eq_pairs (a b cur : String) (part : Nat)
    (ps : List (Int × String)) :
    ∀ (curNeg : Option (Int × String)) (negSettled : Int)
      (negs : List (Int × String)),
      processPositives a b cur part ps curNeg negSettled negs =
        ((processPairs ps curNeg negSettled negs).map
          (fun pr => crossPairRows a b cur part pr.2.1 pr.2.2 pr.1)).flatten := by
  induction ps with
  | nil => intro curNeg negSettled negs; simp [processPositives, processPairs]
  | cons p ps ih =>
    intro curNeg negSettled negs
    rw [processPositives, processPairs]
    simp only [drawNegatives_eq_pairs a b cur part p.2 (2 * negs.length + 2)
      p.1 curNeg negSettled negs, List.map_append, List.flatten_append]
    rw [ih _ _ _]

/-- Claim C5 amended: per currency bucket processed with one part id, the
emitted rows are exactly, pairing by pairing in order, the two offsetting
CrossGroupSettlement rows of amount settle = min(remaining_positive,
remaining_negative) — a row in the positive entry's group (from = user_a,
to = user_b, with_group_id = the negative entry's group) and the mirror
row in the negative entry's group — but the part_transaction id is fresh
per CURRENCY BUCKET, shared by all pairings of that currency, not fresh
per pairing. -/
theorem settleCurrencyBucket_pair_structure (a b cur : String) (part : Nat)
    (owes : List (Int × String)) :
    settleCurrencyBucket a b cur part owes =
      ((bucketPairs owes).map
        (fun pr => crossPairRows a b cur part pr.2.1 pr.2.2 pr.1)).flatten ∧
    ∀ r ∈ settleCurrencyBucket a b cur part owes,
      r.part_transaction = some part ∧ r.transaction_type = .CrossGroupSettlement := by
  constructor
  · rw [settleCurrencyBucket, bucketPairs]
    exact processPositives_eq_pairs a b cur part _ none 0 _
  · intro r hr
    rw [settleCurrencyBucket,
      processPositives_eq_pairs a b cur part _ none 0 _] at hr
    rcases List.mem_flatten.mp hr with ⟨chunk, hchunk, hrc⟩
    rcases List.mem_map.mp hchunk with ⟨pr, _, rfl⟩
    rcases List.mem_cons.mp hrc with h | h
    · rw [h]
      exact ⟨rfl, rfl⟩
    · rcases List.mem_cons.mp h with h2 | h2
      · rw [h2]
        exact ⟨rfl, rfl⟩
      · simp at h2

/-- Claim C5 counterexample: with per-group nets +5 (g1), -2 (g3), -3 (g4)
in one currency, the run emits two pairings — (g1, g3) for 2 and (g1, g4)
for 3 — and the rows of the two DISTINCT pairings carry the SAME
part_transaction id, refuting one fresh part id per pairing. -/
theorem simplify_part_per_pairing_counterexample :
    (simplify_cross_group "a" "b" 9
        [settle_for_group "g1" "b" "a" 5 none .CashPaid none "USD",
         settle_for_group "g3" "a" "b" 2 none .CashPaid none "USD",
         settle_for_group "g4" "a" "b" 3 none .CashPaid none "USD"]).map
      (fun r => (r.group_id, r.amount, r.with_group_id, r.part_transaction)) =
      [("g1", 2, some "g3", some 9), ("g3", 2, some "g1", some 9),
       ("g1", 3, some "g4", some 9), ("g4", 3, some "g1", some 9)] := by
  rfl

theorem add_expense_rows_positive (creator groupId : String)
    (members : List String) (amount : Int) (curId : String)
    (splits : List SplitInput) (eid : Nat) (expenses : List ExpenseRec)
    (ledger : List Split) :
    ∀ res, add_expense creator groupId members amount curId splits eid
        expenses ledger = .ok res →
      ∀ r ∈ res.2, r ∈ ledger ∨ 0 < r.amount := by
  intro res hres r hr
  simp only [add_expense] at hres
  by_cases h1 : (splits.any (fun s => s.user_id == creator)) = true
  · rw [if_pos h1] at hres
    exact Except.noConfusion hres
  · rw [if_neg h1] at hres
    by_cases h2 : amount ≤ 0
    · rw [if_pos h2] at hres
      exact Except.noConfusion hres
    · rw [if_neg h2] at hres
      by_cases h3 : (!((splits.filter (fun s => 0 < s.amount)).all
          (fun s => members.contains s.user_id))) = true
      · rw [if_pos h3] at hres
        exact Except.noConfusion hres
      · rw [if_neg h3] at hres
        injection hres with h
        subst h
        rcases List.mem_append.mp hr with h | h
        · exact Or.inl h
        · right
          rcases List.mem_map.mp h with ⟨s, hs, rfl⟩
          have hpos := (List.mem_filter.mp hs).2
          simpa [expenseSplitRow] using hpos

theorem autoSettleLoop_rows_positive (selfU withU cur : String) (part : Nat) :
    ∀ (os : List (String × Int)) (rem : Int),
      ∀ r ∈ (autoSettleLoop selfU withU cur part os rem).1, 0 < r.amount := by
  intro os
  induction os with
  | nil =>
    intro rem r hr
    simp [autoSettleLoop] at hr
  | cons o os ih =>
    intro rem r hr
    simp only [autoSettleLoop] at hr
    by_cases h1 : rem ≤ 0
    · rw [if_pos h1] at hr
      simp at hr
    · rw [if_neg h1] at hr
      by_cases h2 : 0 < o.2
      · rw [if_pos h2] at hr
        simp only [List.mem_cons] at hr
        rcases hr with rfl | h
        · have : 0 < min o.2 rem := lt_min_iff.mpr ⟨h2, not_le.mp h1⟩
          simpa [autoSettleLeg, settle_for_group] using this
        · exact ih _ r h
      · rw [if_neg h2] at hr
        exact ih _ r hr

theorem auto_settle_rows_positive (selfU withU cur : String) (amount : Int)
    (part : Nat) (directG : String) (ledger : List Split) :
    ∀ r ∈ auto_settle_with_user selfU withU cur amount part directG ledger,
      0 < r.amount := by
  intro r hr
  rw [auto_settle_with_user] at hr
  by_cases h : 0 < (autoSettleLoop selfU withU cur part
      (autoSettleOwes selfU withU cur ledger) amount).2
  · rw [if_pos h] at hr
    rcases List.mem_append.mp hr with h2 | h2
    · exact autoSettleLoop_rows_positive selfU withU cur part _ _ r h2
    · simp only [List.mem_singleton] at h2
      subst h2
      simpa [autoSettleLeg, settle_for_group] using h
  · rw [if_neg h] at hr
    exact autoSettleLoop_rows_positive selfU withU cur part _ _ r hr

theorem crossPairRows_nonneg (a b cur : String) (part : Nat) (pg ng : String)
    (amt : Int) (hamt : 0 ≤ amt) :
    ∀ r ∈ crossPairRows a b cur part pg ng amt, 0 ≤ r.amount := by
  intro r hr
  rcases List.mem_cons.mp hr with rfl | h
  · simpa [settle_for_group] using hamt
  · rcases List.mem_cons.mp h with rfl | h2
    · simpa [settle_for_group] using hamt
    · simp at h2

theorem drawNegatives_rows_nonneg (a b cur : String) (part : Nat) (pg : String)
    (fuel : Nat) :
    ∀ (remPos : Int) (curNeg : Option (Int × String)) (negSettled : Int)
      (negs : List (Int × String)), 0 ≤ remPos →
      ∀ r ∈ (drawNegatives a b cur part pg fuel remPos curNeg negSettled negs).1,
        0 ≤ r.amount := by
  induction fuel with
  | zero =>
    intro remPos curNeg negSettled negs _ r hr
    simp [drawNegatives] at hr
  | succ fuel ih =>
    intro remPos curNeg negSettled negs hpos r hr
    match curNeg, negs with
    | some nv, negs =>
      rw [drawNegatives] at hr
      by_cases h1 : 0 < |nv.1| - negSettled
      · rw [if_pos h1] at hr
        by_cases h2 : remPos < |nv.1| - negSettled
        · rw [if_pos h2] at hr
          exact crossPairRows_nonneg a b cur part pg nv.2 remPos hpos r hr
        · rw [if_neg h2] at hr
          simp only [List.mem_append] at hr
          rcases hr with h | h
          · exact crossPairRows_nonneg a b cur part pg nv.2 _ (le_of_lt h1) r h
          · exact ih (remPos - (|nv.1| - negSettled)) none 0 negs
              (sub_nonneg.mpr (le_of_not_lt h2)) r h
      · rw [if_neg h1] at hr
        exact ih remPos none 0 negs hpos r hr
    | none, [] =>
      simp [drawNegatives] at hr
    | none, n :: rest =>
      rw [drawNegatives] at hr
      exact ih remPos (some n) negSettled rest hpos r hr

theorem processPositives_rows_nonneg (a b cur : String) (part : Nat)
    (ps : List (Int × String)) :
    ∀ (curNeg : Option (Int × String)) (negSettled : Int)
      (negs : List (Int × String)), (∀ p ∈ ps, 0 ≤ p.1) →
      ∀ r ∈ processPositives a b cur part ps curNeg negSettled negs,
        0 ≤ r.amount := by
  induction ps with
  | nil =>
    intro curNeg negSettled negs _ r hr
    simp [processPositives] at hr
  | cons p ps ih =>
    intro curNeg negSettled negs hpos r hr
    rw [processPositives] at hr
    simp only [List.mem_append] at hr
    rcases hr with h | h
    · exact drawNegatives_rows_nonneg a b cur part p.2 _ p.1 curNeg negSettled
        negs (hpos p (List.mem_cons_self p ps)) r h
    · exact ih _ _ _ (fun q hq => hpos q (List.mem_cons_of_mem p hq)) r h

theorem simplify_rows_nonneg (a b : String) (basePart : Nat)
    (ledger : List Split) :
    ∀ r ∈ simplify_cross_group a b basePart ledger, 0 ≤ r.amount := by
  intro r hr
  rw [simplify_cross_group] at hr
  rcases List.mem_flatten.mp hr with ⟨chunk, hchunk, hrc⟩
  rcases List.mem_map.mp hchunk with ⟨ic, _, rfl⟩
  rw [settleCurrencyBucket] at hrc
  refine processPositives_rows_nonneg a b ic.2.1 (basePart + ic.1) _ none 0 _
    (fun p hp => ?_) r hrc
  have := (List.mem_filter.mp hp).2
  exact le_of_lt (by simpa using this)

/-- Claim C6 amended: expense splits and auto-settle legs always carry a
strictly positive amount, and cross-group netting rows carry a non-negative
amount; but the claim fails fully because settle_in_group inserts the
caller-supplied amount without validation (zero or negative rows are
possible), and netting can emit zero-amount rows when a positive entry is
exhausted exactly while a further negative remains. -/
theorem inserted_amounts_amended (creator groupId : String)
    (members : List String) (amount : Int) (curId : String)
    (splits : List SplitInput) (eid : Nat) (expenses : List ExpenseRec)
    (ledger : List Split) (selfU withU cur : String) (amt2 : Int)
    (part : Nat) (directG : String) (basePart : Nat) :
    (∀ res, add_expense creator groupId members amount curId splits eid
        expenses ledger = .ok res → ∀ r ∈ res.2, r ∈ ledger ∨ 0 < r.amount) ∧
    (∀ r ∈ auto_settle_with_user selfU withU cur amt2 part directG ledger,
      0 < r.amount) ∧
    (∀ r ∈ simplify_cross_group selfU withU basePart ledger, 0 ≤ r.amount) :=
  ⟨add_expense_rows_positive creator groupId members amount curId splits eid
      expenses ledger,
   auto_settle_rows_positive selfU withU cur amt2 part directG ledger,
   simplify_rows_nonneg selfU withU basePart ledger⟩

/-- Witness for the amended C6 at concrete operations. -/
theorem inserted_amounts_amended_witness :
    (∀ r ∈ auto_settle_with_user "p" "q" "USD" 150 7 "d"
        [settle_for_group "g1" "p" "q" 100 none .CashPaid none "USD",
         settle_for_group "g2" "p" "q" 80 none .CashPaid none "USD"],
      0 < r.amount) ∧
    (∀ r ∈ simplify_cross_group "a" "b" 9
        [settle_for_group "g1" "b" "a" 5 none .CashPaid none "USD",
         settle_for_group "g3" "a" "b" 2 none .CashPaid none "USD"],
      0 ≤ r.amount) :=
  ⟨(inserted_amounts_amended "c" "g" [] 1 "USD" [] 0 [] _ "p" "q" "USD" 150 7
      "d" 9).2.1,
   (inserted_amounts_amended "c" "g" [] 1 "USD" [] 0 [] _ "a" "b" "USD" 150 9
      "d" 9).2.2⟩

/-- Claim C6 counterexample: settle_in_group performs no amount validation.
With amount -5 between two members it succeeds and commits a
negative-amount row, refuting that every inserted SplitTransaction has a
strictly positive amount. -/
theorem settle_in_group_nonpositive_counterexample :
    settle_in_group "a" "b" "g" ["a", "b"] (-5) "USD" [] =
      .ok [settle_for_group "g" "b" "a" (-5) none .CashPaid none "USD"] ∧
    ¬(0 < (settle_for_group "g" "b" "a" (-5) none .CashPaid none "USD").amount) := by
  exact ⟨rfl, by decide⟩

/-- convert_currency under a store-failure oracle: both rows are written
inside one transaction (src/schema/mutation.rs lines 1220 and 1328), so a
failing insert aborts the whole operation and commits nothing. -/
def convertCommitted (selfU withU groupId fromCurId toCurId : String)
    (fromCur toCur : CurrencyRec) (part : Nat) (failAt : Nat → Bool)
    (ledger : List Split) : List Split × Bool :=
  let rows := convert_currency selfU withU groupId fromCurId toCurId fromCur
    toCur part ledger
  if insertsOk failAt 0 rows.length then (ledger ++ rows, true)
  else (ledger, false)

/-- Claim C2 amended: simplify_cross_group, expense creation and currency
conversion write all their rows in one transaction, so on any failure
nothing is committed; but auto_settle_with_user commits its loop legs first
and writes the leftover leg (sharing the same part id) in a SECOND
transaction, so a failure there leaves the loop legs committed: a failed
run leaves either nothing or exactly the first-transaction legs. -/
theorem multi_leg_atomicity_amended (selfU withU : String) (basePart : Nat)
    (failAt : Nat → Bool) (ledger : List Split) (cur : String) (amount : Int)
    (part : Nat) (directG : String) (creator groupId : String)
    (members : List String) (amt3 : Int) (curId : String)
    (splits : List SplitInput) (eid : Nat) (expenses : List ExpenseRec)
    (groupId2 fromCurId toCurId : String) (fromCur toCur : CurrencyRec)
    (part2 : Nat) :
    ((simplifyCommitted selfU withU basePart failAt ledger).2 = false →
      (simplifyCommitted selfU withU basePart failAt ledger).1 = ledger) ∧
    ((addExpenseCommitted creator groupId members amt3 curId splits eid failAt
        expenses ledger).2 = false →
      (addExpenseCommitted creator groupId members amt3 curId splits eid failAt
        expenses ledger).1 = (expenses, ledger)) ∧
    ((convertCommitted selfU withU groupId2 fromCurId toCurId fromCur toCur
        part2 failAt ledger).2 = false →
      (convertCommitted selfU withU groupId2 fromCurId toCurId fromCur toCur
        part2 failAt ledger).1 = ledger) ∧
    ((autoSettleCommitted selfU withU cur amount part directG failAt ledger).2 = false →
      (autoSettleCommitted selfU withU cur amount part directG failAt ledger).1 = ledger ∨
      (autoSettleCommitted selfU withU cur amount part directG failAt ledger).1 =
        ledger ++ (autoSettleLoop selfU withU cur part
          (autoSettleOwes selfU withU cur ledger) amount).1) := by
  refine ⟨?_, ?_, ?_, ?_⟩
  · intro h
    rw [simplifyCommitted] at h ⊢
    by_cases hok : (insertsOk failAt 0
        (simplify_cross_group selfU withU basePart ledger).length) = true
    · rw [if_pos hok] at h
      simp at h
    · rw [if_neg hok]
  · intro h
    rw [addExpenseCommitted] at h ⊢
    cases hres : add_expense creator groupId members amt3 curId splits eid
        expenses ledger with
    | error e => rfl
    | ok res =>
      rw [hres] at h
      simp only at h ⊢
      by_cases hok : (insertsOk failAt 0
          (1 + (splits.filter (fun s => 0 < s.amount)).length)) = true
      · rw [if_pos hok] at h
        simp at h
      · rw [if_neg hok]
  · intro h
    rw [convertCommitted] at h ⊢
    by_cases hok : (insertsOk failAt 0
        (convert_currency selfU withU groupId2 fromCurId toCurId fromCur toCur
          part2 ledger).length) = true
    · rw [if_pos hok] at h
      simp at h
    · rw [if_neg hok]
  · intro h
    rw [autoSettleCommitted] at h ⊢
    by_cases hok : (insertsOk failAt 0 ((autoSettleLoop selfU withU cur part
        (autoSettleOwes selfU withU cur ledger) amount).1).length) = true
    · rw [if_pos hok] at h ⊢
      by_cases hrem : 0 < (autoSettleLoop selfU withU cur part
          (autoSettleOwes selfU withU cur ledger) amount).2
      · rw [if_pos hrem] at h ⊢
        by_cases hf : (failAt ((autoSettleLoop selfU withU cur part
            (autoSettleOwes selfU withU cur ledger) amount).1).length) = true
        · rw [if_pos hf]
          exact Or.inr rfl
        · rw [if_neg hf] at h
          simp at h
      · rw [if_neg hrem] at h
        simp at h
    · rw [if_neg hok]
      exact Or.inl rfl

/-- Witness for the amended C2: a failing first insert rolls the netting
pass back completely, and a failure on the auto-settle leftover insert
leaves exactly the loop legs. -/
theorem multi_leg_atomicity_amended_witness :
    ((simplifyCommitted "a" "b" 9 (fun _ => true)
        [settle_for_group "g1" "b" "a" 5 none .CashPaid none "USD",
         settle_for_group "g3" "a" "b" 2 none .CashPaid none "USD"]).2 = false →
      (simplifyCommitted "a" "b" 9 (fun _ => true)
        [settle_for_group "g1" "b" "a" 5 none .CashPaid none "USD",
         settle_for_group "g3" "a" "b" 2 none .CashPaid none "USD"]).1 =
        [settle_for_group "g1" "b" "a" 5 none .CashPaid none "USD",
         settle_for_group "g3" "a" "b" 2 none .CashPaid none "USD"]) ∧
    ((simplifyCommitted "a" "b" 9 (fun _ => true)
        [settle_for_group "g1" "b" "a" 5 none .CashPaid none "USD",
         settle_for_group "g3" "a" "b" 2 none .CashPaid none "USD"]).2 = false) :=
  ⟨(multi_leg_atomicity_amended "a" "b" 9 (fun _ => true)
      [settle_for_group "g1" "b" "a" 5 none .CashPaid none "USD",
       settle_for_group "g3" "a" "b" 2 none .CashPaid none "USD"]
      "USD" 150 7 "d" "c" "g" [] 1 "USD" [] 0 []
      "g" "EUR" "JPY" (CurrencyRec.mk 1 2) (CurrencyRec.mk 80 0) 3).1,
   by decide⟩

/-- Claim C2 counterexample: auto_settle of 150 against a single existing
debt of 100, with the store failing on the second insert (the leftover
leg): the operation fails, yet ONE row carrying its part_transaction id 7
is committed — the claim requires zero. -/
theorem auto_settle_partial_commit_counterexample :
    (autoSettleCommitted "p" "q" "USD" 150 7 "d" (fun n => n == 1)
        [settle_for_group "g1" "p" "q" 100 none .CashPaid none "USD"]).2 = false ∧
    countPart 7 (autoSettleCommitted "p" "q" "USD" 150 7 "d" (fun n => n == 1)
        [settle_for_group "g1" "p" "q" 100 none .CashPaid none "USD"]).1 = 1 ∧
    countPart 7 [settle_for_group "g1" "p" "q" 100 none .CashPaid none "USD"] = 0 := by
  exact ⟨rfl, rfl, rfl⟩

theorem mem_insertDesc (x z : String × Int) (l : List (String × Int)) :
    z ∈ insertDesc x l ↔ z = x ∨ z ∈ l := by
  induction l with
  | nil => simp [insertDesc]
  | cons y l ih =>
    rw [insertDesc]
    by_cases h : y.2 ≤ x.2
    · rw [if_pos h]
      simp
    · rw [if_neg h]
      simp only [List.mem_cons, ih]
      tauto

theorem pairwise_insertDesc (x : String × Int) (l : List (String × Int))
    (hl : l.Pairwise (fun p q => q.2 ≤ p.2)) :
    (insertDesc x l).Pairwise (fun p q => q.2 ≤ p.2) := by
  induction l with
  | nil => simp [insertDesc]
  | cons y l ih =>
    rw [insertDesc]
    rcases List.pairwise_cons.mp hl with ⟨hy, hl2⟩
    by_cases h : y.2 ≤ x.2
    · rw [if_pos h]
      refine List.pairwise_cons.mpr ⟨?_, hl⟩
      intro z hz
      rcases List.mem_cons.mp hz with rfl | hz2
      · exact h
      · exact le_trans (hy z hz2) h
    · rw [if_neg h]
      refine List.pairwise_cons.mpr ⟨?_, ih hl2⟩
      intro z hz
      rcases (mem_insertDesc x z l).mp hz with rfl | hz2
      · exact le_of_lt (not_le.mp h)
      · exact hy z hz2

theorem pairwise_sortDesc (l : List (String × Int)) :
    (sortDesc l).Pairwise (fun p q => q.2 ≤ p.2) := by
  induction l with
  | nil => simp [sortDesc]
  | cons x l ih => exact pairwise_insertDesc x (sortDesc l) ih

/-- Settlement allocation as the spec words it (section 4.3): walk the
positive candidates in order, settle min(remaining, debt) for each,
decrementing the remaining amount, stopping when it is exhausted.  Derived
from the spec for comparison with the loop the code runs. -/
def specGreedyLegs : List (String × Int) → Int → List (String × Int) × Int
  | [], rem => ([], rem)
  | d :: ds, rem =>
    if rem ≤ 0 then ([], rem)
    else
      let pay := min d.2 rem
      let rest := specGreedyLegs ds (rem - pay)
      ((d.1, pay) :: rest.1, rest.2)

theorem specGreedyLegs_nonpos (ds : List (String × Int)) (rem : Int)
    (h : rem ≤ 0) : specGreedyLegs ds rem = ([], rem) := by
  cases ds with
  | nil => rfl
  | cons d ds => simp [specGreedyLegs, h]

theorem autoSettleLoop_eq_spec (selfU withU cur : String) (part : Nat) :
    ∀ (os : List (String × Int)) (rem : Int),
      autoSettleLoop selfU withU cur part os rem =
        ((specGreedyLegs (os.filter (fun d => 0 < d.2)) rem).1.map
          (fun gl => autoSettleLeg gl.1 withU selfU gl.2 part cur),
         (specGreedyLegs (os.filter (fun d => 0 < d.2)) rem).2) := by
  intro os
  induction os with
  | nil => intro rem; simp [autoSettleLoop, specGreedyLegs]
  | cons o os ih =>
    intro rem
    rw [autoSettleLoop]
    by_cases h1 : rem ≤ 0
    · rw [if_pos h1]
      by_cases h2 : (0 < o.2)
      · rw [List.filter_cons_of_pos (by simpa using h2),
          specGreedyLegs_nonpos _ rem h1]
        simp
      · rw [List.filter_cons_of_neg (by simpa using h2),
          specGreedyLegs_nonpos _ rem h1]
        simp
    · rw [if_neg h1]
      by_cases h2 : (0 < o.2)
      · rw [if_pos h2, List.filter_cons_of_pos (by simpa using h2)]
        rw [specGreedyLegs, if_neg h1]
        simp only [ih (rem - min o.2 rem), List.map_cons]
      · rw [if_neg h2, List.filter_cons_of_neg (by simpa using h2)]
        exact ih rem

theorem specGreedyLegs_rem (ds : List (String × Int)) (rem : Int)
    (hpos : ∀ d ∈ ds, 0 < d.2) (h0 : 0 ≤ rem) :
    (specGreedyLegs ds rem).2 = max (rem - (ds.map (·.2)).sum) 0 := by
  induction ds generalizing rem with
  | nil =>
    simp only [specGreedyLegs, List.map_nil, List.sum_nil]
    omega
  | cons d ds ih =>
    have hd := hpos d (List.mem_cons_self d ds)
    have hsum : 0 ≤ (ds.map (·.2)).sum := by
      refine List.sum_nonneg (fun x hx => ?_)
      rcases List.mem_map.mp hx with ⟨q, hq, rfl⟩
      exact le_of_lt (hpos q (List.mem_cons_of_mem d hq))
    rw [specGreedyLegs]
    by_cases h1 : rem ≤ 0
    · rw [if_pos h1]
      have : rem = 0 := le_antisymm h1 h0
      subst this
      simp only [List.map_cons, List.sum_cons]
      omega
    · rw [if_neg h1]
      simp only
      rw [ih (rem - min d.2 rem)
        (fun q hq => hpos q (List.mem_cons_of_mem d hq)) (by omega)]
      simp only [List.map_cons, List.sum_cons]
      rcases le_or_lt d.2 rem with hle | hlt
      · rw [min_eq_left hle]
        omega
      · rw [min_eq_right (le_of_lt hlt)]
        omega

theorem auto_settle_rows_part (selfU withU cur : String) (amount : Int)
    (part : Nat) (directG : String) (ledger : List Split) :
    ∀ r ∈ auto_settle_with_user selfU withU cur amount part directG ledger,
      r.part_transaction = some part := by
  intro r hr
  rw [auto_settle_with_user] at hr
  have hloop : ∀ x ∈ (autoSettleLoop selfU withU cur part
      (autoSettleOwes selfU withU cur ledger) amount).1,
      x.part_transaction = some part := by
    rw [autoSettleLoop_eq_spec]
    intro x hx
    rcases List.mem_map.mp hx with ⟨gl, _, rfl⟩
    rfl
  by_cases h : 0 < (autoSettleLoop selfU withU cur part
      (autoSettleOwes selfU withU cur ledger) amount).2
  · rw [if_pos h] at hr
    rcases List.mem_append.mp hr with h2 | h2
    · exact hloop r h2
    · simp only [List.mem_singleton] at h2
      subst h2
      rfl
  · rw [if_neg h] at hr
    exact hloop r hr

/-- Claim C4: auto_settle settles the payer's positive per-group debts to
the payee in the given currency largest-first (the candidate list is sorted
descending by amount), pays min(remaining, debt) per candidate exactly as
the spec greedy allocation does, books every leg with the one shared part
id, adds a reversed-direction leftover leg in the direct group exactly when
the amount exceeds the total positive debt (for the excess), and on debts
{g1:100, g2:80} an auto-settle of 150 yields g1 settled 100 and g2 settled
50 with no leftover row. -/
theorem auto_settle_greedy_spec (selfU withU cur : String) (amount : Int)
    (part : Nat) (directG : String) (ledger : List Split) (h0 : 0 ≤ amount) :
    ((autoSettleOwes selfU withU cur ledger).Pairwise (fun p q => q.2 ≤ p.2)) ∧
    ((autoSettleLoop selfU withU cur part (autoSettleOwes selfU withU cur ledger)
        amount).1 =
      ((specGreedyLegs ((autoSettleOwes selfU withU cur ledger).filter
          (fun d => 0 < d.2)) amount).1).map
        (fun gl => autoSettleLeg gl.1 withU selfU gl.2 part cur)) ∧
    (∀ r ∈ auto_settle_with_user selfU withU cur amount part directG ledger,
      r.part_transaction = some part) ∧
    ((((autoSettleOwes selfU withU cur ledger).filter
        (fun d => 0 < d.2)).map (·.2)).sum < amount →
      auto_settle_with_user selfU withU cur amount part directG ledger =
        (autoSettleLoop selfU withU cur part (autoSettleOwes selfU withU cur ledger)
          amount).1 ++
        [autoSettleLeg directG withU selfU
          (amount - (((autoSettleOwes selfU withU cur ledger).filter
            (fun d => 0 < d.2)).map (·.2)).sum) part cur]) ∧
    (amount ≤ (((autoSettleOwes selfU withU cur ledger).filter
        (fun d => 0 < d.2)).map (·.2)).sum →
      auto_settle_with_user selfU withU cur amount part directG ledger =
        (autoSettleLoop selfU withU cur part (autoSettleOwes selfU withU cur ledger)
          amount).1) ∧
    (auto_settle_with_user "p" "q" "USD" 150 7 "d"
        [settle_for_group "g1" "p" "q" 100 none .CashPaid none "USD",
         settle_for_group "g2" "p" "q" 80 none .CashPaid none "USD"] =
      [autoSettleLeg "g1" "q" "p" 100 7 "USD",
       autoSettleLeg "g2" "q" "p" 50 7 "USD"]) := by
  have hpos : ∀ d ∈ (autoSettleOwes selfU withU cur ledger).filter
      (fun d => 0 < d.2), 0 < d.2 := by
    intro d hd
    have := (List.mem_filter.mp hd).2
    simpa using this
  have hrem : (autoSettleLoop selfU withU cur part
      (autoSettleOwes selfU withU cur ledger) amount).2 =
      max (amount - (((autoSettleOwes selfU withU cur ledger).filter
        (fun d => 0 < d.2)).map (·.2)).sum) 0 := by
    rw [autoSettleLoop_eq_spec]
    exact specGreedyLegs_rem _ amount hpos h0
  refine ⟨pairwise_sortDesc _, ?_, auto_settle_rows_part selfU withU cur amount
    part directG ledger, ?_, ?_, ?_⟩
  · rw [autoSettleLoop_eq_spec]
  · intro hlt
    rw [auto_settle_with_user]
    rw [if_pos (by rw [hrem]; omega)]
    rw [hrem]
    have : max (amount - (((autoSettleOwes selfU withU cur ledger).filter
        (fun d => 0 < d.2)).map (·.2)).sum) 0 =
        amount - (((autoSettleOwes selfU withU cur ledger).filter
          (fun d => 0 < d.2)).map (·.2)).sum := by omega
    rw [this]
  · intro hle
    rw [auto_settle_with_user]
    rw [if_neg (by rw [hrem]; omega)]
  · rfl

/-- Witness for C4 at the concrete spec example. -/
theorem auto_settle_greedy_spec_witness :
    (0 : Int) ≤ 150 ∧
    auto_settle_with_user "p" "q" "USD" 150 7 "d"
        [settle_for_group "g1" "p" "q" 100 none .CashPaid none "USD",
         settle_for_group "g2" "p" "q" 80 none .CashPaid none "USD"] =
      [autoSettleLeg "g1" "q" "p" 100 7 "USD",
       autoSettleLeg "g2" "q" "p" 50 7 "USD"] :=
  ⟨by decide,
   (auto_settle_greedy_spec "p" "q" "USD" 150 7 "d"
      [settle_for_group "g1" "p" "q" 100 none .CashPaid none "USD",
       settle_for_group "g2" "p" "q" 80 none .CashPaid none "USD"]
      (by decide)).2.2.2.2.2⟩

/-- Claim C8: a valid create_expense call commits exactly one Expense row
plus exactly one positive-amount ExpenseSplit row per positive share (from
the share's user to the creator, expense id set, booked in the group), all
in one atomic transaction (a failed insert commits nothing); non-positive
shares yield no rows and no error; and shares [(u1,60), (u2,40)] by c give
exactly the rows (u1 to c, 60) and (u2 to c, 40). -/
theorem add_expense_spec (creator groupId : String) (members : List String)
    (amount : Int) (curId : String) (splits : List SplitInput) (eid : Nat)
    (expenses : List ExpenseRec) (ledger : List Split) (failAt : Nat → Bool)
    (hself : ∀ s ∈ splits, s.user_id ≠ creator) (hamt : 0 < amount)
    (hmem : ∀ s ∈ splits, 0 < s.amount → members.contains s.user_id = true) :
    (add_expense creator groupId members amount curId splits eid expenses ledger =
      .ok (expenses ++ [ExpenseRec.mk eid creator groupId amount curId],
           ledger ++ (splits.filter (fun s => 0 < s.amount)).map
             (expenseSplitRow eid groupId curId creator))) ∧
    (∀ r ∈ (splits.filter (fun s => 0 < s.amount)).map
        (expenseSplitRow eid groupId curId creator),
      r.to_user = creator ∧ r.expense_id = some eid ∧ 0 < r.amount ∧
        r.transaction_type = .ExpenseSplit ∧ r.group_id = groupId) ∧
    ((addExpenseCommitted creator groupId members amount curId splits eid
        failAt expenses ledger).2 = false →
      (addExpenseCommitted creator groupId members amount curId splits eid
        failAt expenses ledger).1 = (expenses, ledger)) ∧
    (add_expense "c" "g" ["u1", "u2"] 100 "USD"
        [SplitInput.mk "u1" 60, SplitInput.mk "u2" 40] 5 [] [] =
      .ok ([ExpenseRec.mk 5 "c" "g" 100 "USD"],
           [expenseSplitRow 5 "g" "USD" "c" (SplitInput.mk "u1" 60),
            expenseSplitRow 5 "g" "USD" "c" (SplitInput.mk "u2" 40)])) := by
  have hany : (splits.any (fun s => s.user_id == creator)) = false := by
    rw [List.any_eq_false]
    intro s hs
    simpa using hself s hs
  have hall : ((splits.filter (fun s => 0 < s.amount)).all
      (fun s => members.contains s.user_id)) = true := by
    rw [List.all_eq_true]
    intro s hs
    rcases List.mem_filter.mp hs with ⟨hsin, hpos⟩
    exact hmem s hsin (by simpa using hpos)
  refine ⟨?_, ?_, ?_, rfl⟩
  · simp only [add_expense, hany, Bool.false_eq_true, if_false,
      if_neg (not_le.mpr hamt), hall, Bool.not_true, Bool.false_eq_true, if_false]
  · intro r hr
    rcases List.mem_map.mp hr with ⟨s, hs, rfl⟩
    have hpos := (List.mem_filter.mp hs).2
    exact ⟨rfl, rfl, by simpa using hpos, rfl, rfl⟩
  · intro h
    rw [addExpenseCommitted] at h ⊢
    cases hres : add_expense creator groupId members amount curId splits eid
        expenses ledger with
    | error e => rfl
    | ok res =>
      rw [hres] at h
      simp only at h ⊢
      by_cases hok : (insertsOk failAt 0
          (1 + (splits.filter (fun s => 0 < s.amount)).length)) = true
      · rw [if_pos hok] at h
        simp at h
      · rw [if_neg hok]

/-- Witness for C8 at the concrete two-share example. -/
theorem add_expense_spec_witness :
    (∀ s ∈ [SplitInput.mk "u1" 60, SplitInput.mk "u2" 40], s.user_id ≠ "c") ∧
    (0 : Int) < 100 ∧
    (add_expense "c" "g" ["u1", "u2"] 100 "USD"
        [SplitInput.mk "u1" 60, SplitInput.mk "u2" 40] 5 [] [] =
      .ok ([ExpenseRec.mk 5 "c" "g" 100 "USD"],
           [expenseSplitRow 5 "g" "USD" "c" (SplitInput.mk "u1" 60),
            expenseSplitRow 5 "g" "USD" "c" (SplitInput.mk "u2" 40)])) :=
  ⟨by decide, by decide,
   (add_expense_spec "c" "g" ["u1", "u2"] 100 "USD"
      [SplitInput.mk "u1" 60, SplitInput.mk "u2" 40] 5 [] []
      (fun _ => false) (by decide) (by decide) (by decide)).1⟩

/-- Claim C10: the self-split check runs on the submitted share list before
non-positive shares are dropped: a share targeting the creator with amount
at most zero is still rejected with the self-split error, and nothing is
committed. -/
theorem add_expense_self_split_precedence (creator groupId : String)
    (members : List String) (amount : Int) (curId : String)
    (splits : List SplitInput) (eid : Nat) (expenses : List ExpenseRec)
    (ledger : List Split) (failAt : Nat → Bool)
    (hs : ∃ s ∈ splits, s.user_id = creator ∧ s.amount ≤ 0) :
    add_expense creator groupId members amount curId splits eid expenses
      ledger = .error "Cant split to self" ∧
    addExpenseCommitted creator groupId members amount curId splits eid
      failAt expenses ledger = ((expenses, ledger), false) := by
  rcases hs with ⟨s, hsin, hsc, _⟩
  have hany : (splits.any (fun s => s.user_id == creator)) = true := by
    rw [List.any_eq_true]
    exact ⟨s, hsin, by simpa using hsc⟩
  have herr : add_expense creator groupId members amount curId splits eid
      expenses ledger = .error "Cant split to self" := by
    simp only [add_expense, hany, if_true]
  refine ⟨herr, ?_⟩
  rw [addExpenseCommitted, herr]

/-- Witness for C10: a creator-targeting share with amount -5 is rejected. -/
theorem add_expense_self_split_precedence_witness :
    (∃ s ∈ [SplitInput.mk "c" (-5)], s.user_id = "c" ∧ s.amount ≤ 0) ∧
    (add_expense "c" "g" ["u1"] 100 "USD" [SplitInput.mk "c" (-5)] 5 [] [] =
      .error "Cant split to self" ∧
    addExpenseCommitted "c" "g" ["u1"] 100 "USD" [SplitInput.mk "c" (-5)] 5
      (fun _ => false) [] [] = (([], []), false)) :=
  ⟨⟨SplitInput.mk "c" (-5), by decide, by decide, by decide⟩,
   add_expense_self_split_precedence "c" "g" ["u1"] 100 "USD"
     [SplitInput.mk "c" (-5)] 5 [] [] (fun _ => false)
     ⟨SplitInput.mk "c" (-5), by decide, by decide, by decide⟩⟩

theorem netOwedIn_append (toU fromU g c : String) (L R : List Split) :
    netOwedIn toU fromU g c (L ++ R) =
      netOwedIn toU fromU g c L + netOwedIn toU fromU g c R := by
  simp [netOwedIn, List.filter_append]

theorem convertedAmount_example :
    convertedAmount 500 (CurrencyRec.mk 1 2) (CurrencyRec.mk 80 0) = 400 := by
  rw [convertedAmount]
  have h : (((500 : Int) : Rat) * (10 : Rat) ^
      ((CurrencyRec.mk (80 : Rat) 0).decimals - (CurrencyRec.mk (1 : Rat) 2).decimals) /
      (CurrencyRec.mk (1 : Rat) 2).rate * (CurrencyRec.mk (80 : Rat) 0).rate) = 400 := by
    norm_num
  rw [h, truncToInt]
  norm_num

/-- Claim C9: convert_currency computes the net balance restricted to the
group and from-currency; zero balance is a no-op success (empty result, no
writes); otherwise exactly two CurrencyConversion rows sharing one part id
are emitted: a from-currency row for the full absolute balance whose
direction cancels the original balance, and a to-currency row for
to_amount = from_amount * 10^(to_decimals - from_decimals) / from_rate *
to_rate (truncated) in the direction preserving who owes whom; at 500
minor units, decimals 2 to 0 and rates 1 to 80 the converted amount is
400.  The f64 rate arithmetic of the source is modelled over the
rationals. -/
theorem convert_currency_spec (selfU withU groupId fromCurId toCurId : String)
    (fromCur toCur : CurrencyRec) (part : Nat) (ledger : List Split)
    (hab : selfU ≠ withU) (hcur : fromCurId ≠ toCurId) :
    (netOwedIn withU selfU groupId fromCurId ledger = 0 →
      convert_currency selfU withU groupId fromCurId toCurId fromCur toCur
        part ledger = []) ∧
    (netOwedIn withU selfU groupId fromCurId ledger ≠ 0 →
      ∃ r1 r2, convert_currency selfU withU groupId fromCurId toCurId fromCur
          toCur part ledger = [r1, r2] ∧
        r1.part_transaction = some part ∧ r2.part_transaction = some part ∧
        r1.transaction_type = .CurrencyConversion ∧
        r2.transaction_type = .CurrencyConversion ∧
        r1.currency_id = fromCurId ∧ r2.currency_id = toCurId ∧
        r1.group_id = groupId ∧ r2.group_id = groupId ∧
        r1.amount = |netOwedIn withU selfU groupId fromCurId ledger| ∧
        r2.amount = convertedAmount |netOwedIn withU selfU groupId fromCurId
          ledger| fromCur toCur ∧
        netOwedIn withU selfU groupId fromCurId (ledger ++ [r1, r2]) = 0 ∧
        netOwedIn withU selfU groupId toCurId (ledger ++ [r1, r2]) =
          netOwedIn withU selfU groupId toCurId ledger +
            (if 0 < netOwedIn withU selfU groupId fromCurId ledger then
              convertedAmount |netOwedIn withU selfU groupId fromCurId ledger|
                fromCur toCur
            else
              -(convertedAmount |netOwedIn withU selfU groupId fromCurId ledger|
                fromCur toCur))) ∧
    convertedAmount 500 (CurrencyRec.mk 1 2) (CurrencyRec.mk 80 0) = 400 := by
  refine ⟨?_, ?_, convertedAmount_example⟩
  · intro h0
    rw [convert_currency, if_pos h0]
  · intro hne
    rw [convert_currency, if_neg hne]
    by_cases hpos : 0 < netOwedIn withU selfU groupId fromCurId ledger
    · rw [if_pos hpos]
      refine ⟨_, _, rfl, rfl, rfl, rfl, rfl, rfl, rfl, rfl, rfl, rfl, rfl, ?_, ?_⟩
      · rw [netOwedIn_append, netOwedIn_cons, netOwedIn_cons]
        simp only [netOwedIn, List.filter_nil, List.map_nil, List.sum_nil]
        simp [betweenUsers, signedAmount, hab, Ne.symm hab, hcur, Ne.symm hcur]
        show netOwedIn withU selfU groupId fromCurId ledger +
          -|netOwedIn withU selfU groupId fromCurId ledger| = 0
        rw [abs_of_pos hpos]
        omega
      · rw [netOwedIn_append, netOwedIn_cons, netOwedIn_cons, if_pos hpos]
        simp only [netOwedIn, List.filter_nil, List.map_nil, List.sum_nil]
        simp [betweenUsers, signedAmount, hab, Ne.symm hab, hcur, Ne.symm hcur]
    · rw [if_neg hpos]
      refine ⟨_, _, rfl, rfl, rfl, rfl, rfl, rfl, rfl, rfl, rfl, rfl, rfl, ?_, ?_⟩
      · rw [netOwedIn_append, netOwedIn_cons, netOwedIn_cons]
        simp only [netOwedIn, List.filter_nil, List.map_nil, List.sum_nil]
        simp [betweenUsers, signedAmount, hab, Ne.symm hab, hcur, Ne.symm hcur]
        show netOwedIn withU selfU groupId fromCurId ledger +
          |netOwedIn withU selfU groupId fromCurId ledger| = 0
        rw [abs_of_neg (show netOwedIn withU selfU groupId fromCurId ledger < 0
          by omega)]
        omega
      · rw [netOwedIn_append, netOwedIn_cons, netOwedIn_cons, if_neg hpos]
        simp only [netOwedIn, List.filter_nil, List.map_nil, List.sum_nil]
        simp [betweenUsers, signedAmount, hab, Ne.symm hab, hcur, Ne.symm hcur]

/-- Witness for C9 at a concrete single-debt ledger of 500 minor units. -/
theorem convert_currency_spec_witness :
    ("a" : String) ≠ "b" ∧ ("EUR" : String) ≠ "JPY" ∧
    (netOwedIn "b" "a" "g" "EUR"
        [settle_for_group "g" "a" "b" 500 none .CashPaid none "EUR"] ≠ 0 →
      ∃ r1 r2, convert_currency "a" "b" "g" "EUR" "JPY" (CurrencyRec.mk 1 2)
          (CurrencyRec.mk 80 0) 3
          [settle_for_group "g" "a" "b" 500 none .CashPaid none "EUR"] = [r1, r2] ∧
        r1.part_transaction = some 3 ∧ r2.part_transaction = some 3 ∧
        r1.transaction_type = .CurrencyConversion ∧
        r2.transaction_type = .CurrencyConversion ∧
        r1.currency_id = "EUR" ∧ r2.currency_id = "JPY" ∧
        r1.group_id = "g" ∧ r2.group_id = "g" ∧
        r1.amount = |netOwedIn "b" "a" "g" "EUR"
          [settle_for_group "g" "a" "b" 500 none .CashPaid none "EUR"]| ∧
        r2.amount = convertedAmount |netOwedIn "b" "a" "g" "EUR"
          [settle_for_group "g" "a" "b" 500 none .CashPaid none "EUR"]|
          (CurrencyRec.mk 1 2) (CurrencyRec.mk 80 0) ∧
        netOwedIn "b" "a" "g" "EUR"
          ([settle_for_group "g" "a" "b" 500 none .CashPaid none "EUR"] ++
            [r1, r2]) = 0 ∧
        netOwedIn "b" "a" "g" "JPY"
          ([settle_for_group "g" "a" "b" 500 none .CashPaid none "EUR"] ++
            [r1, r2]) =
          netOwedIn "b" "a" "g" "JPY"
            [settle_for_group "g" "a" "b" 500 none .CashPaid none "EUR"] +
            (if 0 < netOwedIn "b" "a" "g" "EUR"
                [settle_for_group "g" "a" "b" 500 none .CashPaid none "EUR"] then
              convertedAmount |netOwedIn "b" "a" "g" "EUR"
                [settle_for_group "g" "a" "b" 500 none .CashPaid none "EUR"]|
                (CurrencyRec.mk 1 2) (CurrencyRec.mk 80 0)
            else
              -(convertedAmount |netOwedIn "b" "a" "g" "EUR"
                [settle_for_group "g" "a" "b" 500 none .CashPaid none "EUR"]|
                (CurrencyRec.mk 1 2) (CurrencyRec.mk 80 0)))) :=
  ⟨by decide, by decide,
   (convert_currency_spec "a" "b" "g" "EUR" "JPY" (CurrencyRec.mk 1 2)
      (CurrencyRec.mk 80 0) 3
      [settle_for_group "g" "a" "b" 500 none .CashPaid none "EUR"]
      (by decide) (by decide)).2.1⟩

end DeepSplit
